import Mathlib

/-!
Verification of the core reconciliation logic of a GCP-Secret-Manager to
Kubernetes secret sync service (src/main.py), as a shallow embedding.

The pure key normalizer `normalize_secret_key` is translated directly; the
Unicode NFKD step (Python's `unicodedata.normalize('NFKD', key)`) is kept
abstract as a function parameter, with a small concrete table `nfkdTR`
covering the characters exercised by the spec's test vectors.  The two
adapters and the reconciler are embedded as functions over explicit
outcome/state parameters standing for the external GCP and Kubernetes
clients; the scheduler is embedded as a recursion over a finite script of
per-iteration outcomes.
-/

namespace GcpSecretSync

/-- Character class of `re.sub(r'[^a-zA-Z0-9._-]', '_', ...)` in
`normalize_secret_key`: ASCII alphanumerics (codepoints 97-122 for a-z,
65-90 for A-Z, 48-57 for 0-9), `.`, `_` and `-`. -/
def isValidChar (c : Char) : Bool :=
  (97 ≤ c.toNat && c.toNat ≤ 122) || (65 ≤ c.toNat && c.toNat ≤ 90)
    || (48 ≤ c.toNat && c.toNat ≤ 57) || c = '.' || c = '_' || c = '-'

/-- `str.encode('ascii', 'ignore')`: drop every character outside the
7-bit ASCII range. -/
def asciiIgnore (l : List Char) : List Char :=
  l.filter (fun c => c.toNat < 128)

/-- `re.sub(r'[^a-zA-Z0-9._-]', '_', ascii_key)`: replace every character
outside the valid class with an underscore. -/
def replaceInvalid (l : List Char) : List Char :=
  l.map (fun c => if isValidChar c then c else '_')

/-- `re.sub(r'_+', '_', valid_key)`: collapse every run of consecutive
underscores to a single underscore. -/
def collapseUnderscores : List Char → List Char
  | [] => []
  | [c] => [c]
  | a :: b :: rest =>
    if a = '_' && b = '_' then collapseUnderscores (b :: rest)
    else a :: collapseUnderscores (b :: rest)

/-- Membership in the strip set of `valid_key.strip('_.')`. -/
def isStripChar (c : Char) : Bool := c = '_' || c = '.'

/-- `valid_key.strip('_.')`: remove leading and trailing underscores and
dots. -/
def stripUnderscoreDot (l : List Char) : List Char :=
  ((l.dropWhile isStripChar).reverse.dropWhile isStripChar).reverse

/-- `normalize_secret_key` from src/main.py, parameterized by the Unicode
NFKD decomposition `nfkd` (Python's `unicodedata.normalize('NFKD', ·)`,
which is external standard-library data): NFKD-decompose, drop non-ASCII,
replace invalid characters with `_`, collapse underscore runs, strip
leading/trailing `_` and `.`, and fall back to `INVALID_KEY` when empty. -/
def normalize_secret_key (nfkd : String → String) (key : String) : String :=
  let ascii := asciiIgnore (nfkd key).data
  let valid := replaceInvalid ascii
  let collapsed := collapseUnderscores valid
  let stripped := stripUnderscoreDot collapsed
  if stripped.isEmpty then "INVALID_KEY" else String.mk stripped

/-- Modelled from the spec: the fragment of the Unicode NFKD decomposition
table needed for the spec's test vectors.  ASCII characters are
NFKD-invariant; the capital dotted I (U+0130) decomposes to ASCII `I`
(U+0049) followed by the combining dot above (U+0307). -/
def nfkdCharTR (c : Char) : List Char :=
  if c = 'İ' then ['I', Char.ofNat 0x0307] else [c]

/-- Modelled from the spec: NFKD decomposition over a whole string, using
the per-character table `nfkdCharTR`. -/
def nfkdTR (s : String) : String :=
  String.mk (s.data.flatMap nfkdCharTR)

/-- The destination identifier grammar from the spec,
regex `[-._a-zA-Z0-9]+` (non-empty, every character in the class). -/
def matchesK8sKeyGrammar (s : String) : Bool :=
  !s.data.isEmpty && s.data.all isValidChar

/-- Absence of consecutive underscores, the invariant established by the
underscore-collapsing step. -/
def noDoubleUS (l : List Char) : Prop :=
  l.Chain' (fun a b => ¬(a = '_' ∧ b = '_'))

/-- A string already in the image of the normalizer: non-empty, every
character in the valid class, no consecutive underscores, and neither end
is an underscore or a dot. -/
def isNormalizedKey (s : String) : Prop :=
  s.data ≠ [] ∧ (∀ c ∈ s.data, isValidChar c = true) ∧ noDoubleUS s.data ∧
    (∀ c ∈ s.data.head?, isStripChar c = false) ∧
    (∀ c ∈ s.data.getLast?, isStripChar c = false)

/-- A JSON document as produced by Python's `json.loads`: strings, numbers
(modelled as integers), booleans, null, arrays, and objects (dicts in
source iteration order). -/
inductive JsonValue where
  | str (s : String)
  | num (n : Int)
  | bool (b : Bool)
  | null
  | arr (xs : List JsonValue)
  | obj (kvs : List (String × JsonValue))

/-- Whether a parsed JSON document is a flat key/value mapping (a Python
dict). -/
def JsonValue.isObj : JsonValue → Bool
  | .obj _ => true
  | _ => false

/-- Whether a parsed JSON value is a string. -/
def JsonValue.isStr : JsonValue → Bool
  | .str _ => true
  | _ => false

/-- A single-quote character, used by Python's `repr`. -/
def pyQ : String := "\x27"

mutual

/-- Python's `repr` on a `json.loads` result (strings quoted, containers
bracketed; string escaping inside `repr` is not modelled). -/
def pyRepr : JsonValue → String
  | .str s => pyQ ++ s ++ pyQ
  | .num n => toString n
  | .bool true => "True"
  | .bool false => "False"
  | .null => "None"
  | .arr xs => "[" ++ pyReprList xs ++ "]"
  | .obj kvs => "\x7b" ++ pyReprPairs kvs ++ "\x7d"

/-- Comma-separated `repr` of the elements of a Python list. -/
def pyReprList : List JsonValue → String
  | [] => ""
  | [x] => pyRepr x
  | x :: y :: rest => pyRepr x ++ ", " ++ pyReprList (y :: rest)

/-- Comma-separated `repr` of the entries of a Python dict. -/
def pyReprPairs : List (String × JsonValue) → String
  | [] => ""
  | [(k, w)] => pyQ ++ k ++ pyQ ++ ": " ++ pyRepr w
  | (k, w) :: y :: rest =>
    pyQ ++ k ++ pyQ ++ ": " ++ pyRepr w ++ ", " ++ pyReprPairs (y :: rest)

end

/-- Python's `str(value)` as applied in `update_k8s_secret`: a string value
passes through unchanged, anything else renders as its `repr`. -/
def pyStr : JsonValue → String
  | .str s => s
  | v => pyRepr v

/-- Python's `len` as a partial function: defined on sized values (strings,
lists, dicts), a `TypeError` (modelled as `none`) on numbers, booleans and
null.  `fetch_gcp_secret` calls it in its success-log line. -/
def jsonLen : JsonValue → Option Nat
  | .str s => some s.length
  | .arr xs => some xs.length
  | .obj kvs => some kvs.length
  | _ => none

/-- Failure modes of `fetch_gcp_secret`: the guard on the missing client
handle, an error from `access_secret_version` (or UTF-8 decoding), a
`json.loads` parse failure, and the `TypeError` raised by `len` on an
unsized parse result.  All are re-raised after logging. -/
inductive FetchErr where
  | clientNotInit
  | accessError
  | jsonDecodeError
  | lenTypeError

/-- `fetch_gcp_secret` from src/main.py over explicit outcomes of its two
external calls: `access` is the result of `access_secret_version` plus
UTF-8 decoding of the payload bytes, and `jsonLoads` is the standard
library's `json.loads`.  The parsed document is returned verbatim after
the success-log line evaluates `len` on it. -/
def fetch_gcp_secret (clientInit : Bool) (access : Except Unit String)
    (jsonLoads : String → Except Unit JsonValue) : Except FetchErr JsonValue :=
  if !clientInit then .error .clientNotInit
  else
    match access with
    | .error _ => .error .accessError
    | .ok payload =>
      match jsonLoads payload with
      | .error _ => .error .jsonDecodeError
      | .ok secrets =>
        match jsonLen secrets with
        | none => .error .lenTypeError
        | some _ => .ok secrets

/-- A Kubernetes `V1Secret` body as manipulated by `update_k8s_secret`:
the binary-encoded `data` field and the write-time `string_data` field.
`none` for `data` is the explicit `None` the code assigns to clear it. -/
structure SecretObject where
  data : Option (List (String × String))
  string_data : Option (List (String × String))

/-- Outcome of `read_namespaced_secret`: the existing object, or an
`ApiException` with an HTTP status (404 is the not-found signal). -/
inductive ReadOutcome where
  | found (obj : SecretObject)
  | apiErr (status : Nat)

/-- The write calls issued against the Kubernetes API during one
`update_k8s_secret` invocation, in order of attempt. -/
structure SinkTrace where
  patchCalls : List SecretObject
  createCalls : List SecretObject

/-- Failure modes of `update_k8s_secret`: the guard on the missing client
handle, and a propagated `ApiException` with its HTTP status. -/
inductive UpdateErr where
  | clientNotInit
  | apiError (status : Nat)

/-- Python dict assignment `d[k] = v`: updates the value in place when the
key is present (keeping its position), appends a new entry otherwise. -/
def dictInsert (d : List (String × String)) (k v : String) :
    List (String × String) :=
  if d.any (fun p => p.1 = k) then
    d.map (fun p => if p.1 = k then (k, v) else p)
  else d ++ [(k, v)]

/-- The keys of a dict in insertion order. -/
def dictKeys (d : List (String × String)) : List String :=
  d.map Prod.fst

/-- Python dict lookup `d.get(k)`: the value at the first (and, for dicts,
only) entry with key `k`. -/
def dictGet (d : List (String × String)) (k : String) : Option String :=
  match d with
  | [] => none
  | (a, b) :: rest => if a = k then some b else dictGet rest k

/-- The `string_data` dict built at the top of `update_k8s_secret`: each
source key is normalized and each value passed through `str`, with Python
dict assignment resolving normalization collisions (later entries in
iteration order overwrite earlier ones). -/
def buildStringData (nfkd : String → String)
    (secrets : List (String × JsonValue)) : List (String × String) :=
  secrets.foldl
    (fun acc p => dictInsert acc (normalize_secret_key nfkd p.1) (pyStr p.2)) []

/-- The not-found handler of `update_k8s_secret`: build a fresh `V1Secret`
with only metadata and `string_data` set, and attempt
`create_namespaced_secret`; a failure propagates. -/
def handleNotFound (string_data : List (String × String))
    (createRes : Option Nat) : Except UpdateErr Unit × SinkTrace :=
  let body : SecretObject := ⟨none, some string_data⟩
  match createRes with
  | none => (.ok (), ⟨[], [body]⟩)
  | some s => (.error (.apiError s), ⟨[], [body]⟩)

/-- `update_k8s_secret` from src/main.py over explicit outcomes of the
Kubernetes API calls (`read` for `read_namespaced_secret`; `patchRes`,
`createRes` are `none` on success or the `ApiException` status on
failure).  The single `except ApiException` block covers both the read
and the patch, so a 404 from either leads to the create branch; any other
status re-raises.  The returned trace lists the write calls attempted. -/
def update_k8s_secret (clientInit : Bool) (nfkd : String → String)
    (secrets : List (String × JsonValue)) (read : ReadOutcome)
    (patchRes createRes : Option Nat) : Except UpdateErr Unit × SinkTrace :=
  if !clientInit then (.error .clientNotInit, ⟨[], []⟩)
  else
    let string_data := buildStringData nfkd secrets
    match read with
    | .found existing =>
      let body := { existing with string_data := some string_data, data := none }
      match patchRes with
      | none => (.ok (), ⟨[body], []⟩)
      | some s =>
        if s = 404 then
          let r := handleNotFound string_data createRes
          (r.1, ⟨[body], r.2.createCalls⟩)
        else (.error (.apiError s), ⟨[body], []⟩)
    | .apiErr s =>
      if s = 404 then handleNotFound string_data createRes
      else (.error (.apiError s), ⟨[], []⟩)

/-- Writing the entries of `upd` into the dict `old`, one Python dict
assignment per entry. -/
def mergeInto (old upd : List (String × String)) : List (String × String) :=
  upd.foldl (fun acc p => dictInsert acc p.1 p.2) old

/-- Modelled from the spec: the Kubernetes API server's effect of applying
a patched `V1Secret` body to the stored object's effective content (the
server itself is an external collaborator, absent from src/).  Per the
spec's sink contract, a body whose `data` field is the explicit `None`
clears the stored binary data, a present `data` map merges over it, and
the `string_data` entries are then written over the result. -/
def serverApplyPatch (old : List (String × String)) (body : SecretObject) :
    List (String × String) :=
  let base :=
    match body.data with
    | none => []
    | some d => mergeInto old d
  mergeInto base (body.string_data.getD [])

/-- Modelled from the spec: the content of a freshly created secret object
is its `string_data` written over its `data`. -/
def serverApplyCreate (body : SecretObject) : List (String × String) :=
  mergeInto (body.data.getD []) (body.string_data.getD [])

/-- `sync_secrets` from src/main.py: one fetch → normalize → apply cycle.
Every failure of either adapter (including the `AttributeError` from
calling `.items()` on a non-dict parse result) is caught and converted
into a `False` cycle result; the trace records the write calls that were
attempted. -/
def sync_secrets (gcpInit : Bool) (access : Except Unit String)
    (jsonLoads : String → Except Unit JsonValue) (k8sInit : Bool)
    (nfkd : String → String) (read : ReadOutcome)
    (patchRes createRes : Option Nat) : Bool × SinkTrace :=
  match fetch_gcp_secret gcpInit access jsonLoads with
  | .error _ => (false, ⟨[], []⟩)
  | .ok (.obj kvs) =>
    match update_k8s_secret k8sInit nfkd kvs read patchRes createRes with
    | (.ok _, tr) => (true, tr)
    | (.error _, tr) => (false, tr)
  | .ok _ => (false, ⟨[], []⟩)

/-- What one iteration of the `periodic_sync` loop observes:
`completed b` when `sync_secrets` returned `b` and both awaits finished,
`escapedError` when an exception escaped into the loop's own handler, and
`cancelSignal` when `asyncio.CancelledError` (not an `Exception`, hence
uncaught) was delivered at an await point. -/
inductive CycleOutcome where
  | completed (succeeded : Bool)
  | escapedError
  | cancelSignal
deriving DecidableEq

/-- Observable events of the scheduler loop. -/
inductive SchedEvent where
  | ranCycle
  | slept (seconds : Nat)

/-- The sleep the loop performs after an iteration: the configured
interval after a normally returning cycle, the fixed 60-second back-off
after an escaped error. -/
def cycleSleep (interval : Nat) : CycleOutcome → Nat
  | .escapedError => 60
  | _ => interval

/-- `periodic_sync` from src/main.py, run against a finite script of
per-iteration outcomes: each iteration runs a cycle and then sleeps
(interval on normal return, 60 s back-off when an error escaped into the
loop's `except`), repeating forever; a delivered cancellation stops the
loop (the `Bool` result records whether it stopped rather than exhausting
the script). -/
def periodic_sync (interval : Nat) :
    List CycleOutcome → List SchedEvent × Bool
  | [] => ([], false)
  | .completed b :: rest =>
    let r := periodic_sync interval rest
    (.ranCycle :: .slept (cycleSleep interval (.completed b)) :: r.1, r.2)
  | .escapedError :: rest =>
    let r := periodic_sync interval rest
    (.ranCycle :: .slept (cycleSleep interval .escapedError) :: r.1, r.2)
  | .cancelSignal :: _ => ([], true)

lemma isValidChar_ascii {c : Char} (h : isValidChar c = true) : c.toNat < 128 := by
  simp only [isValidChar, Bool.or_eq_true, Bool.and_eq_true, decide_eq_true_eq] at h
  rcases h with ((((⟨h1, h2⟩ | ⟨h1, h2⟩) | ⟨h1, h2⟩) | h) | h) | h
  · omega
  · omega
  · omega
  · subst h; decide
  · subst h; decide
  · subst h; decide

lemma asciiIgnore_eq_self {l : List Char} (h : ∀ c ∈ l, c.toNat < 128) :
    asciiIgnore l = l := by
  simp only [asciiIgnore]
  rw [List.filter_eq_self]
  intro c hc
  simpa using h c hc

lemma mem_replaceInvalid {l : List Char} {c : Char} (h : c ∈ replaceInvalid l) :
    isValidChar c = true := by
  simp only [replaceInvalid, List.mem_map] at h
  obtain ⟨a, _, ha⟩ := h
  by_cases hv : isValidChar a = true
  · rw [if_pos hv] at ha; exact ha ▸ hv
  · rw [if_neg hv] at ha; rw [← ha]; decide

lemma replaceInvalid_eq_self {l : List Char} (h : ∀ c ∈ l, isValidChar c = true) :
    replaceInvalid l = l := by
  induction l with
  | nil => rfl
  | cons a rest ih =>
    have ha := h a (List.mem_cons_self a rest)
    have hrest := ih (fun c hc => h c (List.mem_cons_of_mem a hc))
    simp only [replaceInvalid, List.map_cons, if_pos ha]
    simp only [replaceInvalid] at hrest
    rw [hrest]

lemma collapse_head? (l : List Char) :
    ∀ a, (collapseUnderscores (a :: l)).head? = some a := by
  induction l with
  | nil => intro a; rfl
  | cons b rest ih =>
    intro a
    by_cases h : a = '_' && b = '_'
    · rw [collapseUnderscores, if_pos h, ih b]
      simp only [Bool.and_eq_true, decide_eq_true_eq] at h
      rw [h.1, h.2]
    · rw [collapseUnderscores, if_neg h]; rfl

lemma mem_collapse (l : List Char) :
    ∀ a c, c ∈ collapseUnderscores (a :: l) → c ∈ a :: l := by
  induction l with
  | nil => intro a c h; exact h
  | cons b rest ih =>
    intro a c h
    by_cases hab : a = '_' && b = '_'
    · rw [collapseUnderscores, if_pos hab] at h
      exact List.mem_cons_of_mem a (ih b c h)
    · rw [collapseUnderscores, if_neg hab] at h
      rcases List.mem_cons.mp h with h' | h'
      · exact h' ▸ List.mem_cons_self _ _
      · exact List.mem_cons_of_mem a (ih b c h')

lemma collapse_chain'_cons (l : List Char) :
    ∀ a, noDoubleUS (collapseUnderscores (a :: l)) := by
  induction l with
  | nil => intro a; simp [collapseUnderscores, noDoubleUS]
  | cons b rest ih =>
    intro a
    by_cases hab : a = '_' && b = '_'
    · rw [noDoubleUS, collapseUnderscores, if_pos hab]
      exact ih b
    · rw [noDoubleUS, collapseUnderscores, if_neg hab]
      rw [List.chain'_cons']
      refine ⟨?_, ih b⟩
      intro y hy
      rw [collapse_head? rest b] at hy
      simp only [Option.mem_def, Option.some.injEq] at hy
      subst hy
      intro ⟨ha, hb⟩
      exact hab (by rw [ha, hb]; rfl)

lemma collapse_noDouble (l : List Char) : noDoubleUS (collapseUnderscores l) := by
  cases l with
  | nil => simp [collapseUnderscores, noDoubleUS]
  | cons a rest => exact collapse_chain'_cons rest a

lemma collapse_eq_self {l : List Char} (h : noDoubleUS l) :
    collapseUnderscores l = l := by
  induction l with
  | nil => rfl
  | cons a rest ih =>
    cases rest with
    | nil => rfl
    | cons b rest' =>
      rw [noDoubleUS, List.chain'_cons] at h
      have hab : ¬(a = '_' && b = '_') := by
        intro hc
        simp only [Bool.and_eq_true, decide_eq_true_eq] at hc
        exact h.1 hc
      rw [collapseUnderscores, if_neg hab, ih h.2]

lemma strip_eq_rdrop (l : List Char) :
    stripUnderscoreDot l =
      List.rdropWhile isStripChar (List.dropWhile isStripChar l) := rfl

lemma strip_contained (l : List Char) : stripUnderscoreDot l <:+: l := by
  rw [strip_eq_rdrop]
  exact (List.rdropWhile_prefix _ _).isInfix.trans
    (List.dropWhile_suffix _).isInfix

lemma strip_head {l : List Char} :
    ∀ c ∈ (stripUnderscoreDot l).head?, isStripChar c = false := by
  intro c hc
  rw [strip_eq_rdrop] at hc
  have hne : List.rdropWhile isStripChar (List.dropWhile isStripChar l) ≠ [] := by
    intro he; rw [he] at hc; exact Option.noConfusion hc
  obtain ⟨t, ht⟩ := List.rdropWhile_prefix isStripChar (List.dropWhile isStripChar l)
  have hhd : (List.dropWhile isStripChar l).head? = some c := by
    rw [← ht, List.head?_append_of_ne_nil _ hne]
    exact hc
  have hdne : List.dropWhile isStripChar l ≠ [] := by
    intro he; rw [he] at hhd; exact Option.noConfusion hhd
  have hnot := List.head_dropWhile_not isStripChar l hdne
  rw [List.head?_eq_head hdne] at hhd
  injection hhd with hhd
  rw [hhd] at hnot
  simpa using hnot

lemma strip_last {l : List Char} :
    ∀ c ∈ (stripUnderscoreDot l).getLast?, isStripChar c = false := by
  intro c hc
  rw [strip_eq_rdrop] at hc
  have hne : List.rdropWhile isStripChar (List.dropWhile isStripChar l) ≠ [] := by
    intro he; rw [he] at hc; exact Option.noConfusion hc
  have hnot := List.rdropWhile_last_not isStripChar (List.dropWhile isStripChar l) hne
  rw [List.getLast?_eq_getLast _ hne] at hc
  simp only [Option.mem_def, Option.some.injEq] at hc
  subst hc
  simpa using hnot

lemma strip_eq_self {l : List Char}
    (hh : ∀ c ∈ l.head?, isStripChar c = false)
    (hl : ∀ c ∈ l.getLast?, isStripChar c = false) :
    stripUnderscoreDot l = l := by
  rw [strip_eq_rdrop]
  have hd : List.dropWhile isStripChar l = l := by
    rw [List.dropWhile_eq_self_iff]
    intro hlen
    have hpos := List.length_pos.mp hlen
    have hmem : l.head hpos ∈ l.head? := by rw [List.head?_eq_head hpos]; rfl
    have := hh (l.head hpos) hmem
    rw [List.get_mk_zero hlen]
    simp [this]
  rw [hd, List.rdropWhile_eq_self_iff]
  intro hne
  have := hl (l.getLast hne) (by rw [List.getLast?_eq_getLast _ hne]; rfl)
  simp [this]

lemma normalize_eq (nfkd : String → String) (key : String) :
    normalize_secret_key nfkd key =
      if (stripUnderscoreDot (collapseUnderscores (replaceInvalid
            (asciiIgnore (nfkd key).data)))).isEmpty
      then "INVALID_KEY"
      else String.mk (stripUnderscoreDot (collapseUnderscores (replaceInvalid
            (asciiIgnore (nfkd key).data)))) := rfl

lemma mem_collapse' {l : List Char} {c : Char}
    (h : c ∈ collapseUnderscores l) : c ∈ l := by
  cases l with
  | nil => exact h
  | cons a rest => exact mem_collapse rest a c h

lemma invalid_key_normalized : isNormalizedKey "INVALID_KEY" := by
  refine ⟨by decide, by decide, ?_, by decide, by decide⟩
  rw [noDoubleUS]
  show List.Chain' (fun a b => ¬(a = '_' ∧ b = '_'))
    ['I', 'N', 'V', 'A', 'L', 'I', 'D', '_', 'K', 'E', 'Y']
  simp only [List.chain'_cons, List.chain'_singleton, and_true]
  decide

lemma normalize_isNormalized (nfkd : String → String) (key : String) :
    isNormalizedKey (normalize_secret_key nfkd key) := by
  rw [normalize_eq]
  by_cases he : (stripUnderscoreDot (collapseUnderscores (replaceInvalid
      (asciiIgnore (nfkd key).data)))).isEmpty
  · rw [if_pos he]; exact invalid_key_normalized
  · rw [if_neg he]
    have hne : stripUnderscoreDot (collapseUnderscores (replaceInvalid
        (asciiIgnore (nfkd key).data))) ≠ [] := by
      simpa [List.isEmpty_iff] using he
    refine ⟨hne, ?_, ?_, ?_, ?_⟩
    · intro c hc
      have h1 : c ∈ collapseUnderscores (replaceInvalid (asciiIgnore (nfkd key).data)) :=
        (strip_contained _).sublist.mem hc
      exact mem_replaceInvalid (mem_collapse' h1)
    · exact List.Chain'.infix (collapse_noDouble _) (strip_contained _)
    · exact strip_head
    · exact strip_last

/-- Claim C2: for every NFKD decomposition function and every input key, the
normalizer is total (it is a Lean function) and returns a non-empty string
matching the destination identifier grammar. -/
theorem normalize_total_valid_grammar (nfkd : String → String) (key : String) :
    matchesK8sKeyGrammar (normalize_secret_key nfkd key) = true := by
  obtain ⟨hne, hval, -, -, -⟩ := normalize_isNormalized nfkd key
  simp only [matchesK8sKeyGrammar, Bool.and_eq_true, Bool.not_eq_true',
    List.isEmpty_eq_false, List.all_eq_true]
  exact ⟨hne, hval⟩

lemma normalize_fixes {nfkd : String → String} {s : String} (hfix : nfkd s = s)
    (hs : isNormalizedKey s) : normalize_secret_key nfkd s = s := by
  obtain ⟨hne, hval, hnd, hh, hl⟩ := hs
  rw [normalize_eq, hfix,
    asciiIgnore_eq_self (fun c hc => isValidChar_ascii (hval c hc)),
    replaceInvalid_eq_self hval, collapse_eq_self hnd, strip_eq_self hh hl,
    if_neg (by simpa [List.isEmpty_iff] using hne)]

/-- Claim C5: the normalizer satisfies the five enumerated test vectors
(empty string, the Turkish capital dotted I, double space, leading and
trailing underscores, and an all-punctuation key). -/
theorem normalize_test_vectors :
    normalize_secret_key nfkdTR "" = "INVALID_KEY" ∧
      normalize_secret_key nfkdTR "İstanbul" = "Istanbul" ∧
      normalize_secret_key nfkdTR "a  b" = "a_b" ∧
      normalize_secret_key nfkdTR "__lead.trail__" = "lead.trail" ∧
      normalize_secret_key nfkdTR "!!!" = "INVALID_KEY" :=
  ⟨by decide, by decide, by decide, by decide, by decide⟩

/-- Claim C10: the normalizer is idempotent: under the (true) assumption
that NFKD decomposition fixes pure-ASCII strings, a second application of
`normalize_secret_key` leaves its own output unchanged. -/
theorem normalize_idempotent (nfkd : String → String)
    (hascii : ∀ s : String, (∀ c ∈ s.data, c.toNat < 128) → nfkd s = s)
    (key : String) :
    normalize_secret_key nfkd (normalize_secret_key nfkd key) =
      normalize_secret_key nfkd key := by
  have hn := normalize_isNormalized nfkd key
  exact normalize_fixes
    (hascii _ (fun c hc => isValidChar_ascii (hn.2.1 c hc))) hn

/-- Witness for C10 at the identity decomposition and a concrete key. -/
theorem normalize_idempotent_witness :
    normalize_secret_key id (normalize_secret_key id "a  b!") =
      normalize_secret_key id "a  b!" :=
  normalize_idempotent id (fun _ _ => rfl) "a  b!"

lemma dictInsert_of_not_mem {d : List (String × String)} {k : String}
    (v : String) (h : k ∉ dictKeys d) : dictInsert d k v = d ++ [(k, v)] := by
  rw [dictInsert, if_neg]
  intro hc
  rw [List.any_eq_true] at hc
  obtain ⟨p, hp, hpk⟩ := hc
  rw [decide_eq_true_eq] at hpk
  exact h (hpk ▸ List.mem_map_of_mem Prod.fst hp)

lemma dictKeys_dictInsert_mem {d : List (String × String)} {k : String}
    (v : String) (h : k ∈ dictKeys d) :
    dictKeys (dictInsert d k v) = dictKeys d := by
  rw [dictInsert, if_pos]
  · rw [dictKeys, List.map_map, dictKeys]
    apply List.map_congr_left
    intro p _
    by_cases hpk : p.1 = k
    · simp [Function.comp, hpk]
    · simp [Function.comp, hpk]
  · rw [List.any_eq_true]
    obtain ⟨p, hp, hpk⟩ := List.mem_map.mp h
    exact ⟨p, hp, by simp [hpk]⟩

lemma nodup_dictKeys_dictInsert {d : List (String × String)} {k : String}
    (v : String) (h : (dictKeys d).Nodup) :
    (dictKeys (dictInsert d k v)).Nodup := by
  by_cases hk : k ∈ dictKeys d
  · rw [dictKeys_dictInsert_mem v hk]; exact h
  · rw [dictInsert_of_not_mem v hk, dictKeys, List.map_append]
    rw [List.nodup_append]
    refine ⟨h, List.nodup_singleton k, ?_⟩
    intro a ha hb
    simp only [List.map_cons, List.map_nil, List.mem_singleton] at hb
    exact hk (hb ▸ ha)

lemma nodup_foldl_dictInsert (nfkd : String → String)
    (l : List (String × JsonValue)) :
    ∀ acc, (dictKeys acc).Nodup →
      (dictKeys (l.foldl
        (fun acc p =>
          dictInsert acc (normalize_secret_key nfkd p.1) (pyStr p.2)) acc)).Nodup := by
  induction l with
  | nil => intro acc h; exact h
  | cons p rest ih =>
    intro acc h
    exact ih _ (nodup_dictKeys_dictInsert _ h)

lemma buildStringData_keys_nodup (nfkd : String → String)
    (secrets : List (String × JsonValue)) :
    (dictKeys (buildStringData nfkd secrets)).Nodup :=
  nodup_foldl_dictInsert nfkd secrets [] (by simp [dictKeys])

lemma foldl_dictInsert_disjoint (l : List (String × String)) :
    ∀ acc, (dictKeys l).Nodup → (∀ k ∈ dictKeys l, k ∉ dictKeys acc) →
      l.foldl (fun acc p => dictInsert acc p.1 p.2) acc = acc ++ l := by
  induction l with
  | nil => intro acc _ _; simp
  | cons p rest ih =>
    intro acc hnd hdisj
    obtain ⟨k, v⟩ := p
    simp only [List.foldl_cons]
    have hknotacc : k ∉ dictKeys acc :=
      hdisj k (by simp [dictKeys])
    rw [dictInsert_of_not_mem v hknotacc]
    have hndrest : (dictKeys rest).Nodup := by
      rw [dictKeys] at hnd
      simp only [List.map_cons] at hnd
      exact (List.nodup_cons.mp hnd).2
    have hknotrest : k ∉ dictKeys rest := by
      rw [dictKeys] at hnd
      simp only [List.map_cons] at hnd
      exact (List.nodup_cons.mp hnd).1
    have hdisj' : ∀ k' ∈ dictKeys rest, k' ∉ dictKeys (acc ++ [(k, v)]) := by
      intro k' hk'
      have hk'cons : k' ∈ dictKeys ((k, v) :: rest) := by
        rw [dictKeys, List.map_cons]
        exact List.mem_cons_of_mem _ hk'
      rw [dictKeys, List.map_append]
      intro hmem
      rcases List.mem_append.mp hmem with hmem | hmem
      · exact hdisj k' hk'cons hmem
      · simp only [List.map_cons, List.map_nil, List.mem_singleton] at hmem
        exact hknotrest (hmem ▸ hk')
    rw [ih (acc ++ [(k, v)]) hndrest hdisj', List.append_assoc,
      List.singleton_append]

lemma mergeInto_nil {l : List (String × String)} (h : (dictKeys l).Nodup) :
    mergeInto [] l = l := by
  rw [mergeInto, foldl_dictInsert_disjoint l [] h (by simp [dictKeys])]
  simp

lemma dictGet_dictInsert_self (d : List (String × String)) (k v : String) :
    dictGet (dictInsert d k v) k = some v := by
  induction d with
  | nil => simp [dictInsert, dictGet]
  | cons a rest ih =>
    obtain ⟨ak, av⟩ := a
    by_cases hany : rest.any (fun p => p.1 = k) = true
    · have hcons : ((ak, av) :: rest).any (fun p => decide (p.1 = k)) = true := by
        simp only [List.any_cons, hany, Bool.or_true]
      by_cases hak : ak = k
      · rw [dictInsert, if_pos hcons]
        simp only [List.map_cons, if_pos hak]
        simp [dictGet]
      · rw [dictInsert, if_pos hcons]
        simp only [List.map_cons, if_neg hak]
        rw [dictGet, if_neg hak]
        have hrw : dictInsert rest k v =
            rest.map (fun p => if p.1 = k then (k, v) else p) := by
          rw [dictInsert, if_pos hany]
        rw [← hrw]
        exact ih
    · by_cases hak : ak = k
      · have hcons : ((ak, av) :: rest).any (fun p => decide (p.1 = k)) = true := by
          simp [hak]
        rw [dictInsert, if_pos hcons]
        simp only [List.map_cons, if_pos hak]
        simp [dictGet]
      · have hcons : ¬((ak, av) :: rest).any (fun p => decide (p.1 = k)) = true := by
          simp only [List.any_cons, Bool.or_eq_true, decide_eq_true_eq]
          rintro (h | h)
          · exact hak h
          · exact hany h
        rw [dictInsert, if_neg hcons]
        simp only [List.cons_append]
        rw [dictGet, if_neg hak]
        have hrw : dictInsert rest k v = rest ++ [(k, v)] := by
          rw [dictInsert, if_neg hany]
        rw [← hrw]
        exact ih

lemma dictGet_dictInsert_ne (d : List (String × String)) {k k' : String}
    (v : String) (h : k' ≠ k) :
    dictGet (dictInsert d k v) k' = dictGet d k' := by
  induction d with
  | nil =>
    rw [dictInsert_of_not_mem v (by simp [dictKeys])]
    simp only [List.nil_append, dictGet]
    rw [if_neg (fun hc => h hc.symm)]
  | cons a rest ih =>
    obtain ⟨ak, av⟩ := a
    by_cases hany : rest.any (fun p => p.1 = k) = true
    · by_cases hak : ak = k
      · have hcons : ((ak, av) :: rest).any (fun p => decide (p.1 = k)) = true := by
          simp [hak]
        rw [dictInsert, if_pos hcons]
        simp only [List.map_cons, if_pos hak]
        rw [dictGet, dictGet, if_neg (fun hc => h hc.symm),
          if_neg (fun hc => h ((hak ▸ hc : k = k')).symm)]
        have hrw : dictInsert rest k v =
            rest.map (fun p => if p.1 = k then (k, v) else p) := by
          rw [dictInsert, if_pos hany]
        rw [← hrw]
        exact ih
      · have hcons : ((ak, av) :: rest).any (fun p => decide (p.1 = k)) = true := by
          simp only [List.any_cons, hany, Bool.or_true]
        rw [dictInsert, if_pos hcons]
        simp only [List.map_cons, if_neg hak]
        rw [dictGet, dictGet]
        by_cases hk' : ak = k'
        · rw [if_pos hk', if_pos hk']
        · rw [if_neg hk', if_neg hk']
          have hrw : dictInsert rest k v =
              rest.map (fun p => if p.1 = k then (k, v) else p) := by
            rw [dictInsert, if_pos hany]
          rw [← hrw]
          exact ih
    · by_cases hak : ak = k
      · have hcons : ((ak, av) :: rest).any (fun p => decide (p.1 = k)) = true := by
          simp [hak]
        rw [dictInsert, if_pos hcons]
        simp only [List.map_cons, if_pos hak]
        rw [dictGet, dictGet, if_neg (fun hc => h hc.symm),
          if_neg (fun hc => h ((hak ▸ hc : k = k')).symm)]
        have hmap : rest.map (fun p => if p.1 = k then (k, v) else p) = rest := by
          have hid : ∀ p ∈ rest, (if p.1 = k then (k, v) else p) = p := by
            intro p hp
            rw [if_neg]
            intro hpk
            exact hany (List.any_eq_true.mpr ⟨p, hp, by simp [hpk]⟩)
          rw [List.map_congr_left hid, List.map_id']
        rw [hmap]
      · have hcons : ¬((ak, av) :: rest).any (fun p => decide (p.1 = k)) = true := by
          simp only [List.any_cons, Bool.or_eq_true, decide_eq_true_eq]
          rintro (hc | hc)
          · exact hak hc
          · exact hany hc
        rw [dictInsert, if_neg hcons]
        simp only [List.cons_append]
        rw [dictGet, dictGet]
        by_cases hk' : ak = k'
        · rw [if_pos hk', if_pos hk']
        · rw [if_neg hk', if_neg hk']
          have hrw : dictInsert rest k v = rest ++ [(k, v)] := by
            rw [dictInsert, if_neg hany]
          rw [← hrw]
          exact ih

lemma mem_dictInsert {d : List (String × String)} {k v : String}
    {kv : String × String} (h : kv ∈ dictInsert d k v) :
    kv ∈ d ∨ kv = (k, v) := by
  rw [dictInsert] at h
  by_cases hany : d.any (fun p => decide (p.1 = k)) = true
  · rw [if_pos hany] at h
    obtain ⟨p, hp, hpe⟩ := List.mem_map.mp h
    by_cases hpk : p.1 = k
    · rw [if_pos hpk] at hpe
      exact Or.inr hpe.symm
    · rw [if_neg hpk] at hpe
      exact Or.inl (hpe ▸ hp)
  · rw [if_neg hany] at h
    rcases List.mem_append.mp h with h | h
    · exact Or.inl h
    · exact Or.inr (List.mem_singleton.mp h)

lemma buildStringData_concat (nfkd : String → String)
    (l : List (String × JsonValue)) (p : String × JsonValue) :
    buildStringData nfkd (l ++ [p]) =
      dictInsert (buildStringData nfkd l)
        (normalize_secret_key nfkd p.1) (pyStr p.2) := by
  rw [buildStringData, buildStringData, List.foldl_append, List.foldl_cons,
    List.foldl_nil]

lemma dictGet_buildStringData (nfkd : String → String)
    (secrets : List (String × JsonValue)) (nk : String) :
    dictGet (buildStringData nfkd secrets) nk =
      ((secrets.filter
          (fun p => normalize_secret_key nfkd p.1 = nk)).getLast?).map
        (fun p => pyStr p.2) := by
  induction secrets using List.reverseRecOn with
  | nil => simp [buildStringData, dictGet]
  | append_singleton l p ih =>
    rw [buildStringData_concat, List.filter_append]
    by_cases hp : normalize_secret_key nfkd p.1 = nk
    · rw [hp, dictGet_dictInsert_self]
      have hfp : List.filter
          (fun p => decide (normalize_secret_key nfkd p.1 = nk)) [p] = [p] := by
        simp [hp]
      rw [hfp, List.getLast?_concat]
      rfl
    · rw [dictGet_dictInsert_ne _ _ (fun hc => hp hc.symm)]
      have hfp : List.filter
          (fun p => decide (normalize_secret_key nfkd p.1 = nk)) [p] = [] := by
        simp [hp]
      rw [hfp, List.append_nil]
      exact ih

lemma mem_buildStringData (nfkd : String → String)
    (secrets : List (String × JsonValue)) :
    ∀ kv ∈ buildStringData nfkd secrets,
      ∃ p ∈ secrets, kv.1 = normalize_secret_key nfkd p.1 ∧ kv.2 = pyStr p.2 := by
  induction secrets using List.reverseRecOn with
  | nil => intro kv h; simp [buildStringData] at h
  | append_singleton l p ih =>
    intro kv h
    rw [buildStringData_concat] at h
    rcases mem_dictInsert h with h | h
    · obtain ⟨q, hq, hqe⟩ := ih kv h
      exact ⟨q, List.mem_append_left _ hq, hqe⟩
    · refine ⟨p, List.mem_append_right _ (List.mem_singleton_self p), ?_⟩
      rw [h]
      exact ⟨rfl, rfl⟩

lemma fetch_ok_iff (clientInit : Bool) (access : Except Unit String)
    (jsonLoads : String → Except Unit JsonValue) (v : JsonValue) :
    fetch_gcp_secret clientInit access jsonLoads = .ok v ↔
      clientInit = true ∧ ∃ payload, access = .ok payload ∧
        jsonLoads payload = .ok v ∧ (jsonLen v).isSome := by
  cases clientInit with
  | false => simp [fetch_gcp_secret]
  | true =>
    rcases access with u | payload
    · simp [fetch_gcp_secret]
    · rcases hjl : jsonLoads payload with u | secrets
      · simp only [fetch_gcp_secret, Bool.not_true, Bool.false_eq_true,
          if_false, hjl]
        constructor
        · intro hc; exact Except.noConfusion hc
        · rintro ⟨-, payload', hpe, hjl', -⟩
          rw [Except.ok.injEq] at hpe
          rw [← hpe, hjl] at hjl'
          exact Except.noConfusion hjl'
      · rcases hlen : jsonLen secrets with - | n
        · simp only [fetch_gcp_secret, Bool.not_true, Bool.false_eq_true,
            if_false, hjl, hlen]
          constructor
          · intro hc; exact Except.noConfusion hc
          · rintro ⟨-, payload', hpe, hjl', hsome⟩
            rw [Except.ok.injEq] at hpe
            rw [← hpe, hjl] at hjl'
            rw [Except.ok.injEq] at hjl'
            rw [← hjl', hlen] at hsome
            simp at hsome
        · simp only [fetch_gcp_secret, Bool.not_true, Bool.false_eq_true,
            if_false, hjl, hlen]
          constructor
          · intro hc
            rw [Except.ok.injEq] at hc
            refine ⟨by trivial, payload, rfl, ?_, ?_⟩
            · rw [hjl, hc]
            · rw [← hc, hlen]; rfl
          · rintro ⟨-, payload', hpe, hjl', -⟩
            rw [Except.ok.injEq] at hpe
            rw [← hpe, hjl] at hjl'
            rw [Except.ok.injEq] at hjl'
            rw [hjl']

lemma fetch_decode_error_iff (clientInit : Bool) (access : Except Unit String)
    (jsonLoads : String → Except Unit JsonValue) :
    fetch_gcp_secret clientInit access jsonLoads = .error .jsonDecodeError ↔
      clientInit = true ∧ ∃ payload, access = .ok payload ∧
        jsonLoads payload = .error () := by
  cases clientInit with
  | false =>
    simp only [fetch_gcp_secret, Bool.not_false, if_true]
    constructor
    · intro hc
      rw [Except.error.injEq] at hc
      exact FetchErr.noConfusion hc
    · rintro ⟨hc, -⟩
      exact Bool.noConfusion hc
  | true =>
    rcases access with u | payload
    · simp only [fetch_gcp_secret, Bool.not_true, Bool.false_eq_true, if_false]
      constructor
      · intro hc
        rw [Except.error.injEq] at hc
        exact FetchErr.noConfusion hc
      · rintro ⟨-, payload', hpe, -⟩
        exact Except.noConfusion hpe
    · rcases hjl : jsonLoads payload with u | secrets
      · simp only [fetch_gcp_secret, Bool.not_true, Bool.false_eq_true,
          if_false, hjl]
        constructor
        · intro _; exact ⟨by trivial, payload, rfl, by rw [hjl]⟩
        · intro _; trivial
      · rcases hlen : jsonLen secrets with - | n
        · simp only [fetch_gcp_secret, Bool.not_true, Bool.false_eq_true,
            if_false, hjl, hlen]
          constructor
          · intro hc
            rw [Except.error.injEq] at hc
            exact FetchErr.noConfusion hc
          · rintro ⟨-, payload', hpe, hjl'⟩
            rw [Except.ok.injEq] at hpe
            rw [← hpe, hjl] at hjl'
            exact Except.noConfusion hjl'
        · simp only [fetch_gcp_secret, Bool.not_true, Bool.false_eq_true,
            if_false, hjl, hlen]
          constructor
          · intro hc; exact Except.noConfusion hc
          · rintro ⟨-, payload', hpe, hjl'⟩
            rw [Except.ok.injEq] at hpe
            rw [← hpe, hjl] at hjl'
            exact Except.noConfusion hjl'

/-- Claim C1: full-replace semantics of the sink.  Applying the sink to an
existing destination object replaces its effective content with exactly
the normalized bundle: the patch succeeds with a single patch body whose
`data` field is cleared and whose `string_data` is the bundle, and under
the (spec-modelled) server patch semantics the post-apply content equals
the bundle, so every key of the old content absent from the bundle is
removed. -/
theorem sink_full_replace (nfkd : String → String)
    (secrets : List (String × JsonValue))
    (oldContent : List (String × String)) :
    (update_k8s_secret true nfkd secrets
        (.found ⟨some oldContent, none⟩) none none).1 = .ok () ∧
    (update_k8s_secret true nfkd secrets
        (.found ⟨some oldContent, none⟩) none none).2.patchCalls =
      [⟨none, some (buildStringData nfkd secrets)⟩] ∧
    serverApplyPatch oldContent ⟨none, some (buildStringData nfkd secrets)⟩ =
      buildStringData nfkd secrets ∧
    ∀ k, dictGet (buildStringData nfkd secrets) k = none →
      dictGet (serverApplyPatch oldContent
        ⟨none, some (buildStringData nfkd secrets)⟩) k = none := by
  have hsp : serverApplyPatch oldContent
      ⟨none, some (buildStringData nfkd secrets)⟩ =
      buildStringData nfkd secrets := by
    show mergeInto [] (buildStringData nfkd secrets) = buildStringData nfkd secrets
    exact mergeInto_nil (buildStringData_keys_nodup nfkd secrets)
  refine ⟨rfl, rfl, hsp, ?_⟩
  intro k hk
  rw [hsp]
  exact hk

/-- Claim C3 counterexample: applying the sink to an existing object whose
patch call itself fails with a 404 results in one patch call and one
create call (the create succeeding), contradicting "apply on an existing
object performs exactly one patch call and zero create calls". -/
theorem create_vs_update_counterexample :
    (update_k8s_secret true id [] (.found ⟨some [("A", "x")], none⟩)
        (some 404) none).1 = .ok () ∧
    (update_k8s_secret true id [] (.found ⟨some [("A", "x")], none⟩)
        (some 404) none).2.patchCalls.length = 1 ∧
    (update_k8s_secret true id [] (.found ⟨some [("A", "x")], none⟩)
        (some 404) none).2.createCalls.length = 1 :=
  ⟨rfl, rfl, rfl⟩

/-- Claim C3 (amended): sink branching on the read outcome.  A not-found
read yields exactly one create attempt and no patch; an existing object
with a non-404 patch outcome yields exactly one patch attempt and no
create (succeeding when the patch succeeds); a non-404 error from the
read propagates with no write attempted; a non-404 error from the patch
propagates after the single patch attempt with no create.  (Only a 404
from the patch itself falls through to a create, per the counterexample.) -/
theorem create_vs_update_branch (nfkd : String → String)
    (secrets : List (String × JsonValue)) (existing : SecretObject)
    (s : Nat) (patchRes createRes : Option Nat) (hs : s ≠ 404) :
    ((update_k8s_secret true nfkd secrets (.apiErr 404)
        patchRes createRes).2.patchCalls = [] ∧
      (update_k8s_secret true nfkd secrets (.apiErr 404)
        patchRes createRes).2.createCalls.length = 1) ∧
    ((update_k8s_secret true nfkd secrets (.found existing)
        none createRes).1 = .ok () ∧
      (update_k8s_secret true nfkd secrets (.found existing)
        none createRes).2.patchCalls.length = 1 ∧
      (update_k8s_secret true nfkd secrets (.found existing)
        none createRes).2.createCalls = []) ∧
    (update_k8s_secret true nfkd secrets (.apiErr s) patchRes createRes =
      (.error (.apiError s), ⟨[], []⟩)) ∧
    ((update_k8s_secret true nfkd secrets (.found existing)
        (some s) createRes).1 = .error (.apiError s) ∧
      (update_k8s_secret true nfkd secrets (.found existing)
        (some s) createRes).2.patchCalls.length = 1 ∧
      (update_k8s_secret true nfkd secrets (.found existing)
        (some s) createRes).2.createCalls = []) := by
  refine ⟨?_, ?_, ?_, ?_⟩
  · cases createRes with
    | none => exact ⟨rfl, rfl⟩
    | some s2 => exact ⟨rfl, rfl⟩
  · exact ⟨rfl, rfl, rfl⟩
  · simp only [update_k8s_secret, Bool.not_true, Bool.false_eq_true, if_false,
      if_neg hs]
  · simp only [update_k8s_secret, Bool.not_true, Bool.false_eq_true, if_false,
      if_neg hs]
    exact ⟨by trivial, by trivial, by trivial⟩

/-- Witness for the amended C3 at concrete inputs (status 500). -/
theorem create_vs_update_branch_witness :
    ((update_k8s_secret true id [] (.apiErr 404)
        none none).2.patchCalls = [] ∧
      (update_k8s_secret true id [] (.apiErr 404)
        none none).2.createCalls.length = 1) ∧
    ((update_k8s_secret true id [] (.found ⟨none, none⟩)
        none none).1 = .ok () ∧
      (update_k8s_secret true id [] (.found ⟨none, none⟩)
        none none).2.patchCalls.length = 1 ∧
      (update_k8s_secret true id [] (.found ⟨none, none⟩)
        none none).2.createCalls = []) ∧
    (update_k8s_secret true id [] (.apiErr 500) none none =
      (.error (.apiError 500), ⟨[], []⟩)) ∧
    ((update_k8s_secret true id [] (.found ⟨none, none⟩)
        (some 500) none).1 = .error (.apiError 500) ∧
      (update_k8s_secret true id [] (.found ⟨none, none⟩)
        (some 500) none).2.patchCalls.length = 1 ∧
      (update_k8s_secret true id [] (.found ⟨none, none⟩)
        (some 500) none).2.createCalls = []) :=
  create_vs_update_branch id [] ⟨none, none⟩ 500 none none (by decide)

/-- Claim C4: whenever the source fetch fails, the cycle returns a failed
result (`false`, never an escaped fault: `sync_secrets` is total) and no
write call — neither patch nor create — is attempted against the
destination object. -/
theorem cycle_fetch_failure_isolated (gcpInit : Bool)
    (access : Except Unit String)
    (jsonLoads : String → Except Unit JsonValue) (k8sInit : Bool)
    (nfkd : String → String) (read : ReadOutcome)
    (patchRes createRes : Option Nat) (e : FetchErr)
    (hfail : fetch_gcp_secret gcpInit access jsonLoads = .error e) :
    sync_secrets gcpInit access jsonLoads k8sInit nfkd read
      patchRes createRes = (false, ⟨[], []⟩) := by
  rw [sync_secrets, hfail]

/-- Witness for C4: a fetch against an uninitialized client. -/
theorem cycle_fetch_failure_isolated_witness :
    sync_secrets false (.ok "") (fun _ => .ok .null) true id (.apiErr 404)
      none none = (false, ⟨[], []⟩) :=
  cycle_fetch_failure_isolated false (.ok "") (fun _ => .ok .null) true id
    (.apiErr 404) none none .clientNotInit rfl

/-- Claim C6 counterexample: a payload parsing to a JSON array is returned
by a successful fetch, so a successful fetch is not always a flat mapping
and no decode error is raised for a non-mapping document. -/
theorem fetch_returns_non_mapping :
    fetch_gcp_secret true (.ok "[1, 2]")
        (fun _ => .ok (.arr [.num 1, .num 2])) =
      .ok (.arr [.num 1, .num 2]) ∧
    (JsonValue.arr [.num 1, .num 2]).isObj = false :=
  ⟨rfl, rfl⟩

/-- Claim C6 (amended): fetch succeeds exactly when the client is
initialized, the remote call succeeds, the payload parses as JSON, and the
parse result supports `len` (mapping, array, or string) — the parsed
document is returned verbatim with no validation that it is a mapping;
and fetch fails with the decode error exactly when the payload is not
parseable JSON. -/
theorem fetch_success_characterization (clientInit : Bool)
    (access : Except Unit String)
    (jsonLoads : String → Except Unit JsonValue) (v : JsonValue) :
    (fetch_gcp_secret clientInit access jsonLoads = .ok v ↔
      clientInit = true ∧ ∃ payload, access = .ok payload ∧
        jsonLoads payload = .ok v ∧ (jsonLen v).isSome) ∧
    (fetch_gcp_secret clientInit access jsonLoads =
        .error .jsonDecodeError ↔
      clientInit = true ∧ ∃ payload, access = .ok payload ∧
        jsonLoads payload = .error ()) :=
  ⟨fetch_ok_iff clientInit access jsonLoads v,
    fetch_decode_error_iff clientInit access jsonLoads⟩

/-- Claim C7 counterexample: fetch returns a bundle whose value is the
number 1, not a string — values are not stringified at fetch time. -/
theorem fetch_values_not_stringified :
    fetch_gcp_secret true (.ok "obj")
        (fun _ => .ok (.obj [("a", .num 1)])) =
      .ok (.obj [("a", .num 1)]) ∧
    (JsonValue.num 1).isStr = false :=
  ⟨rfl, rfl⟩

/-- Claim C7 (amended): fetch returns the parsed values verbatim
(unstringified); stringification happens at apply time: every entry of
the `string_data` built in `update_k8s_secret` carries the `str` of some
source value under the normalization of its key. -/
theorem fetch_verbatim_stringified_at_apply (clientInit : Bool)
    (access : Except Unit String)
    (jsonLoads : String → Except Unit JsonValue) (v : JsonValue)
    (hok : fetch_gcp_secret clientInit access jsonLoads = .ok v)
    (nfkd : String → String) (secrets : List (String × JsonValue)) :
    (∃ payload, access = .ok payload ∧ jsonLoads payload = .ok v) ∧
    ∀ kv ∈ buildStringData nfkd secrets,
      ∃ p ∈ secrets, kv.1 = normalize_secret_key nfkd p.1 ∧
        kv.2 = pyStr p.2 := by
  refine ⟨?_, mem_buildStringData nfkd secrets⟩
  obtain ⟨-, payload, hpe, hjl, -⟩ :=
    (fetch_ok_iff clientInit access jsonLoads v).mp hok
  exact ⟨payload, hpe, hjl⟩

/-- Witness for the amended C7 at a concrete successful fetch. -/
theorem fetch_verbatim_stringified_at_apply_witness :
    (∃ payload, (Except.ok "p" : Except Unit String) = .ok payload ∧
      (fun _ : String =>
          (Except.ok (JsonValue.obj [("a", .num 1)]) : Except Unit JsonValue))
          payload = .ok (JsonValue.obj [("a", .num 1)])) ∧
    ∀ kv ∈ buildStringData id [("a", JsonValue.num 1)],
      ∃ p ∈ [("a", JsonValue.num 1)],
        kv.1 = normalize_secret_key id p.1 ∧ kv.2 = pyStr p.2 :=
  fetch_verbatim_stringified_at_apply true (.ok "p")
    (fun _ => .ok (.obj [("a", .num 1)])) (.obj [("a", .num 1)]) rfl
    id [("a", JsonValue.num 1)]

/-- Claim C8: normalization collision policy — when a later entry of the
source bundle normalizes to the same identifier as an earlier entry (and
no entry after it collides with that identifier), the `string_data` sent
to the sink holds the stringified value of the later entry. -/
theorem collision_later_key_wins (nfkd : String → String)
    (pre mid post : List (String × JsonValue)) (k1 k2 : String)
    (v1 v2 : JsonValue) (_hne : k1 ≠ k2)
    (_hcol : normalize_secret_key nfkd k1 = normalize_secret_key nfkd k2)
    (hpost : ∀ p ∈ post,
      normalize_secret_key nfkd p.1 ≠ normalize_secret_key nfkd k2) :
    dictGet
        (buildStringData nfkd
          (pre ++ [(k1, v1)] ++ mid ++ [(k2, v2)] ++ post))
        (normalize_secret_key nfkd k2) = some (pyStr v2) := by
  rw [dictGet_buildStringData]
  have hpostf : List.filter
      (fun p => decide (normalize_secret_key nfkd p.1 =
        normalize_secret_key nfkd k2)) post = [] := by
    rw [List.filter_eq_nil_iff]
    intro p hp
    simpa using hpost p hp
  have h2 : List.filter
      (fun p => decide (normalize_secret_key nfkd p.1 =
        normalize_secret_key nfkd k2)) [(k2, v2)] = [(k2, v2)] := by
    simp
  simp only [List.append_assoc, List.filter_append, hpostf, h2,
    List.append_nil]
  rw [List.getLast?_append_of_ne_nil, List.getLast?_append_of_ne_nil,
    List.getLast?_append_of_ne_nil]
  · rfl
  · simp
  · simp
  · simp

/-- Witness for C8: two concrete keys colliding to the identifier a_b. -/
theorem collision_later_key_wins_witness :
    dictGet
        (buildStringData id
          ([] ++ [("a b", JsonValue.str "x")] ++ [] ++
            [("a_b", JsonValue.num 7)] ++ []))
        (normalize_secret_key id "a_b") = some (pyStr (JsonValue.num 7)) :=
  collision_later_key_wins id [] [] [] "a b" "a_b" (.str "x") (.num 7)
    (by decide) (by decide) (by simp)

/-- Claim C9: scheduler failure isolation and liveness.  Along any finite
script of iteration outcomes with no cancellation — including one where
every cycle fails — the loop never stops: it runs one cycle per script
entry, each followed by a sleep (the configured interval after a
normally returning cycle, the fixed 60-second back-off after an escaped
error); and the loop stops exactly when the script contains a
cancellation signal. -/
theorem scheduler_failure_isolation_liveness :
    (∀ (interval : Nat) (outcomes : List CycleOutcome),
      CycleOutcome.cancelSignal ∉ outcomes →
        (periodic_sync interval outcomes).2 = false ∧
        (periodic_sync interval outcomes).1 =
          outcomes.flatMap (fun o =>
            [SchedEvent.ranCycle, SchedEvent.slept (cycleSleep interval o)])) ∧
    (∀ (interval : Nat) (outcomes : List CycleOutcome),
      (periodic_sync interval outcomes).2 = true ↔
        CycleOutcome.cancelSignal ∈ outcomes) := by
  constructor
  · intro interval outcomes hnc
    induction outcomes with
    | nil => exact ⟨rfl, rfl⟩
    | cons o rest ih =>
      have hno : o ≠ CycleOutcome.cancelSignal :=
        fun h => hnc (h ▸ List.mem_cons_self o rest)
      have hnrest : CycleOutcome.cancelSignal ∉ rest :=
        fun h => hnc (List.mem_cons_of_mem o h)
      obtain ⟨ih1, ih2⟩ := ih hnrest
      cases o with
      | completed b =>
        rw [periodic_sync]
        exact ⟨ih1, by rw [List.flatMap_cons, ih2]; rfl⟩
      | escapedError =>
        rw [periodic_sync]
        exact ⟨ih1, by rw [List.flatMap_cons, ih2]; rfl⟩
      | cancelSignal => exact absurd rfl hno
  · intro interval outcomes
    induction outcomes with
    | nil =>
      simp only [periodic_sync, List.not_mem_nil, iff_false]
      exact Bool.false_ne_true
    | cons o rest ih =>
      cases o with
      | completed b =>
        rw [periodic_sync]
        simp only [List.mem_cons]
        rw [ih]
        constructor
        · exact Or.inr
        · rintro (h | h)
          · exact CycleOutcome.noConfusion h
          · exact h
      | escapedError =>
        rw [periodic_sync]
        simp only [List.mem_cons]
        rw [ih]
        constructor
        · exact Or.inr
        · rintro (h | h)
          · exact CycleOutcome.noConfusion h
          · exact h
      | cancelSignal =>
        simp [periodic_sync]

/-- Witness for C9: a two-entry script in which every cycle fails (one
guarded failure, one escaped error), at the default 300-second interval. -/
theorem scheduler_failure_isolation_liveness_witness :
    (periodic_sync 300 [.completed false, .escapedError]).2 = false ∧
    (periodic_sync 300 [.completed false, .escapedError]).1 =
      [SchedEvent.ranCycle, SchedEvent.slept 300,
        SchedEvent.ranCycle, SchedEvent.slept 60] :=
  scheduler_failure_isolation_liveness.1 300
    [.completed false, .escapedError] (by decide)

end GcpSecretSync
